import Mathlib

/-!
Verification of the chunked-world management core of the `mycraft` voxel
engine (`src/world.rs`, `src/world/chunk_queue.rs`, `src/rendering.rs`,
`src/rendering/chunk_mesh.rs`) against its design specification.

The Rust code is shallowly embedded:

* `i32` coordinates become `Int` (the coordinates in play are tiny, so
  two's-complement wraparound never matters);
* `f32` scalars become `Rat`: every numeric operation the embedded code
  performs on them (subtraction, multiplication, squared distances,
  `total_cmp`-based comparison) is exact in this range of use, and the
  properties proved are order-theoretic, not rounding-sensitive;
* `HashMap<ChunkCoords, Rc<RefCell<Chunk>>>` becomes the partial map
  `Vec3 → Option Chunk`.  The `Rc<RefCell<_>>` handles stored in the
  processing queue alias the map entries, so queue items are embedded as
  their coordinate key and every access goes through the authoritative
  map (the spec's §9 design note describes exactly this remodelling);
* `Vec::sort_unstable_by_key` / `Vec::sort_by` become `List.mergeSort`
  with the corresponding key order (a legal refinement: the claims under
  test only constrain the key order of the result, never tie-breaking);
* GPU buffers (`wgpu::Buffer`) are kept as the lists of vertices/indices
  that the code uploads into them.

Code of the repository that is outside the excerpt (`world/utils.rs`,
`world/blocks.rs`, `world/generation.rs`, `world/light.rs`,
`world/mesh.rs`, `rendering/world_renderer.rs`, `rendering/frustrum.rs`)
is modelled from the spec where a claim depends on it; each such
definition carries a doc comment starting with `Modelled from the spec:`.
The terrain generator, light propagation, mesh generation and the
frustum predicate are opaque collaborators of `World::update` and enter
the embedding as explicit function parameters, constrained only by the
interface contracts of spec §6.
-/

namespace Mycraft

/-- A 3D integer vector, embedding `cgmath::Vector3<i32>`
(`ChunkCoords` and `BlockCoords` in `world.rs`). -/
structure Vec3 where
  x : Int
  y : Int
  z : Int
deriving DecidableEq, Repr

instance : Add Vec3 := ⟨fun a b => ⟨a.x + b.x, a.y + b.y, a.z + b.z⟩⟩

theorem Vec3.add_def (a b : Vec3) : a + b = ⟨a.x + b.x, a.y + b.y, a.z + b.z⟩ := rfl

/-- Squared euclidean distance of two integer vectors:
`cgmath::MetricSpace::distance2` on `Vector3<i32>`. -/
def Vec3.distance2 (a b : Vec3) : Int :=
  (b.x - a.x) * (b.x - a.x) + (b.y - a.y) * (b.y - a.y) + (b.z - a.z) * (b.z - a.z)

/-- A 3D rational vector, embedding `cgmath::Vector3<f32>`. -/
structure Vec3q where
  x : Rat
  y : Rat
  z : Rat
deriving DecidableEq, Repr

instance : Sub Vec3q := ⟨fun a b => ⟨a.x - b.x, a.y - b.y, a.z - b.z⟩⟩

/-- Squared euclidean distance of two rational vectors:
`cgmath::MetricSpace::distance2` on `Vector3<f32>`. -/
def Vec3q.distance2 (a b : Vec3q) : Rat :=
  (b.x - a.x) * (b.x - a.x) + (b.y - a.y) * (b.y - a.y) + (b.z - a.z) * (b.z - a.z)

/-- Modelled from the spec: `world/blocks.rs` is not part of the excerpt.
Block identity is an id resolving into a static block-definition table;
only the distinguished `Air` identity matters to the claims, so a block
is represented by its id. -/
abbrev BlockId := Nat

/-- Modelled from the spec: the `BlockId::Air` variant of the missing
`world/blocks.rs`, as a distinguished id. -/
def BlockId.air : BlockId := 0

/-- Embeds `LightLevel` from `world.rs` (`u8`; the core never computes on it). -/
abbrev LightLevel := Nat

/-- The `Cell` struct of `world.rs`: block identity plus two light channels. -/
structure Cell where
  block_id : BlockId
  sun_light : LightLevel
  block_light : LightLevel
deriving DecidableEq, Repr

/-- The `ChunkStatus` enum of `world.rs`.  The derived Rust `Ord` is the
declaration order: `NotGenerated < LightmapOutdated < GraphicsOutdated < Ready`. -/
inductive ChunkStatus where
  | NotGenerated
  | LightmapOutdated
  | GraphicsOutdated
  | Ready
deriving DecidableEq, Repr

/-- Rank of a status in the derived Rust `Ord` (declaration order). -/
def ChunkStatus.toNat : ChunkStatus → Nat
  | .NotGenerated => 0
  | .LightmapOutdated => 1
  | .GraphicsOutdated => 2
  | .Ready => 3

instance : LE ChunkStatus := ⟨fun a b => a.toNat ≤ b.toNat⟩

instance (a b : ChunkStatus) : Decidable (a ≤ b) :=
  inferInstanceAs (Decidable (a.toNat ≤ b.toNat))

/-- Embeds `Ord::min` on `ChunkStatus`, by the derived declaration order. -/
def ChunkStatus.min (a b : ChunkStatus) : ChunkStatus :=
  if a.toNat ≤ b.toNat then a else b

theorem ChunkStatus.min_le_left (a b : ChunkStatus) : a.min b ≤ a := by
  unfold ChunkStatus.min
  split
  · exact Nat.le_refl _
  · exact Nat.le_of_lt (Nat.lt_of_not_le (by assumption))

theorem ChunkStatus.min_le_right (a b : ChunkStatus) : a.min b ≤ b := by
  unfold ChunkStatus.min
  split
  · assumption
  · exact Nat.le_refl _

theorem ChunkStatus.min_idem_right (a b : ChunkStatus) : (a.min b).min b = a.min b := by
  cases a <;> cases b <;> rfl

theorem ChunkStatus.min_eq_notGenerated {a b : ChunkStatus}
    (h : a.min b = .NotGenerated) (hb : b = .LightmapOutdated) : a = .NotGenerated := by
  subst hb; cases a <;> simp_all [ChunkStatus.min, ChunkStatus.toNat]

theorem ChunkStatus.ne_notGenerated_min {a : ChunkStatus}
    (h : a ≠ .NotGenerated) : a.min .LightmapOutdated ≠ .NotGenerated := by
  cases a <;> simp_all [ChunkStatus.min, ChunkStatus.toNat]

/-- The `Vertex` struct of `rendering.rs`: position, texture coordinates
and normal. -/
structure Vertex where
  pos : Vec3q
  tex : Rat × Rat
  normal : Vec3q
deriving DecidableEq, Repr

/-- The `Face` struct of `rendering.rs`: a quad descriptor used for
transparent-geometry sorting. -/
structure Face where
  base_index : Nat
  center : Vec3q
  distance : Rat
deriving DecidableEq, Repr

/-- Embeds `Face::VERTEX_INDICES` from `rendering.rs`. -/
def Face.VERTEX_INDICES : List Nat := [0, 1, 2, 2, 1, 3]

/-- Embeds `Face::generate_default_indices` from `rendering.rs`: cycle the six
quad indices, shifting by four vertices per face.  The infinite
`cycle().enumerate()` chain is embedded by direct position arithmetic:
element `i` of the cycled constant list is its entry at `i % 6`. -/
def Face.generate_default_indices (face_count : Nat) : List Nat :=
  (List.range (face_count * 6)).map (fun i => Face.VERTEX_INDICES.getD (i % 6) 0 + i / 6 * 4)

/-- Embeds `Face::generate_indices` from `rendering.rs`: each face contributes
the six quad indices shifted by its `base_index`. -/
def Face.generate_indices (faces : List Face) : List Nat :=
  faces.flatMap (fun face => Face.VERTEX_INDICES.map (fun x => x + face.base_index))

/-- The `ChunkMesh` struct of `rendering/chunk_mesh.rs`.  The two
`wgpu::Buffer`s are kept as the vertex and index lists the code uploads
into them. -/
structure ChunkMesh where
  vertices : List Vertex
  indices : List Nat
  index_count : Nat
deriving DecidableEq, Repr

/-- Embeds `ChunkMesh::new` from `rendering/chunk_mesh.rs` (label and GPU
context dropped; buffer contents kept). -/
def ChunkMesh.new (vertices : List Vertex) (indices : List Nat) : ChunkMesh :=
  ⟨vertices, indices, indices.length⟩

/-- Modelled from the spec: `ChunkMesh::write_indices` is called by
`ChunkGraphics::sort_water_geometry` but is absent from the excerpted
`rendering/chunk_mesh.rs`; per spec §4.5 it regenerates (overwrites) the
mesh's index buffer. -/
def ChunkMesh.write_indices (m : ChunkMesh) (indices : List Nat) : ChunkMesh :=
  { m with indices := indices, index_count := indices.length }

namespace Rendering

/-- The `ChunkGraphicsData` struct of `rendering.rs`. -/
structure ChunkGraphicsData where
  water_faces : List Face
  needs_update : Bool
deriving DecidableEq, Repr

/-- The `ChunkGraphics` struct of `rendering.rs`.  The 4×4 transform
uniform is embedded as a rational matrix. -/
structure ChunkGraphics where
  solid_mesh : ChunkMesh
  water_mesh : ChunkMesh
  transform : Matrix (Fin 4) (Fin 4) Rat
  graphics_data : ChunkGraphicsData

/-- Comparison used by `sort_water_geometry`: the Rust comparator
`|x, y| y.distance.total_cmp(&x.distance)` orders by descending
`distance` (on the rational embedding, `total_cmp` agrees with `≤`). -/
def faceLe (x y : Face) : Bool := decide (y.distance ≤ x.distance)

/-- Embeds `ChunkGraphics::sort_water_geometry` from `rendering.rs`: recompute
every face's squared distance to the camera position in chunk-local
space, stably sort faces by descending distance, and regenerate the
water mesh's index buffer from the new face order. -/
def ChunkGraphics.sort_water_geometry (g : ChunkGraphics) (relative_cam_pos : Vec3q) :
    ChunkGraphics :=
  let faces := g.graphics_data.water_faces.map
    (fun face => { face with distance := relative_cam_pos.distance2 face.center })
  let sorted := faces.mergeSort faceLe
  { g with
    graphics_data := { g.graphics_data with water_faces := sorted }
    water_mesh := g.water_mesh.write_indices (Face.generate_indices sorted) }

end Rendering

namespace WorldRenderer

/-- Modelled from the spec: `rendering/world_renderer.rs` is not in the
excerpt.  Per spec §3, per-chunk graphics data is the transparent-face
list plus the `water_faces_unsorted` dirty flag. -/
structure ChunkGraphicsData where
  water_faces : List Face
  water_faces_unsorted : Bool
deriving DecidableEq, Repr

/-- Modelled from the spec: the `ChunkGraphics` type `world.rs` imports
from the missing `rendering/world_renderer.rs`; per spec §3 it owns the
solid mesh, the transparent ("water") mesh, the chunk world-offset
uniform and the mutable `graphics_data`. -/
structure ChunkGraphics where
  solid_mesh : ChunkMesh
  water_mesh : ChunkMesh
  offset : Vec3q
  graphics_data : ChunkGraphicsData
deriving DecidableEq, Repr

/-- Modelled from the spec: `needs_water_faces_sorting` (used at
`world.rs:183`) reads the dirty flag of the graphics data. -/
def ChunkGraphics.needs_water_faces_sorting (g : ChunkGraphics) : Bool :=
  g.graphics_data.water_faces_unsorted

/-- Modelled from the spec: `sort_water_faces` (called at `world.rs:187`,
defined in the missing `world_renderer.rs`); per spec §4.5 it recomputes
face distances, sorts by descending distance, regenerates the index
buffer, and (per the debouncing of §4.3) clears the dirty flag. -/
def ChunkGraphics.sort_water_faces (g : ChunkGraphics) (relative_cam_pos : Vec3q) :
    ChunkGraphics :=
  let faces := g.graphics_data.water_faces.map
    (fun face => { face with distance := relative_cam_pos.distance2 face.center })
  let sorted := faces.mergeSort Rendering.faceLe
  { g with
    water_mesh := g.water_mesh.write_indices (Face.generate_indices sorted)
    graphics_data := { water_faces := sorted, water_faces_unsorted := false } }

end WorldRenderer

/-- The `Chunk` struct of `world.rs`.  The 16×16×16 `data` array is
embedded as a total function on coordinates (the code only ever indexes
it with local coordinates in `[0, 16)`). -/
structure Chunk where
  data : Vec3 → Cell
  graphics : Option WorldRenderer.ChunkGraphics
  status : ChunkStatus

/-- Embeds `Chunk::SIZE` from `world.rs`. -/
def Chunk.SIZE : Int := 16

/-- Embeds `Chunk::new` from `world.rs`: every cell is air with both light
channels zero, no graphics, status `NotGenerated`. -/
def Chunk.new : Chunk where
  data := fun _ => { block_id := BlockId.air, sun_light := 0, block_light := 0 }
  graphics := none
  status := .NotGenerated

/-- Embeds `Chunk::invalidate` from `world.rs`: change the chunk status if the
current one is higher. -/
def Chunk.invalidate (c : Chunk) (new_status : ChunkStatus) : Chunk :=
  { c with status := c.status.min new_status }

/-- The `Aabb` of `utils/aabb.rs` as used by `chunk_queue.rs`
(start corner and size, both `Vector3<f32>`). -/
structure Aabb where
  start : Vec3q
  size : Vec3q
deriving DecidableEq, Repr

/-- Modelled from the spec: the frustum of the missing
`rendering/frustrum.rs` enters the embedding as the pure geometric
predicate `intersects_with_aabb` of spec §2. -/
def Frustrum := Aabb → Bool

/-- Embeds `chunk_aabb` from `chunk_queue.rs`: the world-space bounding box of
the chunk at the given coordinates. -/
def chunk_aabb (coords : Vec3) : Aabb where
  start := ⟨(coords.x * Chunk.SIZE : Int), (coords.y * Chunk.SIZE : Int),
            (coords.z * Chunk.SIZE : Int)⟩
  size := ⟨(Chunk.SIZE : Int), (Chunk.SIZE : Int), (Chunk.SIZE : Int)⟩

/-- The `ChunkQueueItem` struct of `chunk_queue.rs`.  The
`Rc<RefCell<Chunk>>` handle is embedded as a chunk value: none of the
queue-local operations verified here mutate a chunk through the handle. -/
structure ChunkQueueItem where
  coords : Vec3
  chunk : Chunk
  in_frustrum : Bool

/-- The `ChunkQueue` struct of `chunk_queue.rs`. -/
structure ChunkQueue where
  queue : List ChunkQueueItem
  needs_sort : Bool
  point_of_view : Vec3

/-- Embeds `ChunkQueue::new` from `chunk_queue.rs`. -/
def ChunkQueue.new : ChunkQueue := ⟨[], false, ⟨0, 0, 0⟩⟩

/-- The in-place update done by `queue.iter_mut().find(..)` inside
`ChunkQueue::insert`: replace the chunk handle of the first item with
matching coordinates. -/
def replaceFirstChunk : List ChunkQueueItem → Vec3 → Chunk → List ChunkQueueItem
  | [], _, _ => []
  | x :: xs, coords, chunk =>
    if x.coords = coords then { x with chunk := chunk } :: xs
    else x :: replaceFirstChunk xs coords chunk

/-- Embeds `ChunkQueue::insert` from `chunk_queue.rs`: if an item with these
coordinates exists, replace its chunk handle in place; otherwise push a
new item (not in frustum) and mark the queue as needing a sort. -/
def ChunkQueue.insert (q : ChunkQueue) (coords : Vec3) (chunk : Chunk) : ChunkQueue :=
  if q.queue.any (fun x => decide (x.coords = coords)) then
    { q with queue := replaceFirstChunk q.queue coords chunk }
  else
    { q with queue := q.queue ++ [⟨coords, chunk, false⟩], needs_sort := true }

/-- Embeds `ChunkQueue::mark_unsorted` from `chunk_queue.rs`. -/
def ChunkQueue.mark_unsorted (q : ChunkQueue) : ChunkQueue :=
  { q with needs_sort := true }

/-- Embeds `ChunkQueue::needs_to_be_sorted` from `chunk_queue.rs`. -/
def ChunkQueue.needs_to_be_sorted (q : ChunkQueue) : Bool := q.needs_sort

/-- Key order used by `ChunkQueue::sort`: ascending squared distance of
the item's coordinates from the camera chunk coordinates. -/
def itemLe (cam_chunk_coords : Vec3) (a b : ChunkQueueItem) : Bool :=
  decide (cam_chunk_coords.distance2 a.coords ≤ cam_chunk_coords.distance2 b.coords)

/-- Embeds `ChunkQueue::sort` from `chunk_queue.rs`: record the point of view,
sort the queue by ascending squared distance from it
(`sort_unstable_by_key`; ties in any order), clear the dirty flag. -/
def ChunkQueue.sort (q : ChunkQueue) (cam_chunk_coords : Vec3) : ChunkQueue where
  queue := q.queue.mergeSort (itemLe cam_chunk_coords)
  needs_sort := false
  point_of_view := cam_chunk_coords

/-- Embeds `ChunkQueue::clip_to_frustrum` from `chunk_queue.rs`: recompute
every item's `in_frustrum` flag against the chunk's bounding box. -/
def ChunkQueue.clip_to_frustrum (q : ChunkQueue) (frustrum : Frustrum) : ChunkQueue :=
  { q with
    queue := q.queue.map
      (fun item => { item with in_frustrum := frustrum (chunk_aabb item.coords) }) }

/-- Embeds `ChunkQueue::iter` from `chunk_queue.rs`: the in-frustum items, in
current queue order. -/
def ChunkQueue.iter (q : ChunkQueue) : List (Vec3 × Chunk) :=
  (q.queue.filter (fun x => x.in_frustrum)).map (fun x => (x.coords, x.chunk))

/-- Embeds `ChunkQueue::iter_graphics` from `chunk_queue.rs`: walk the queue in
reverse order, keep the in-frustum items, and yield the graphics handle
of every item whose chunk has one. -/
def ChunkQueue.iter_graphics (q : ChunkQueue) : List (Vec3 × WorldRenderer.ChunkGraphics) :=
  (q.queue.reverse.filter (fun x => x.in_frustrum)).filterMap
    (fun x => x.chunk.graphics.map (fun g => (x.coords, g)))

/-- The reading of `iter_graphics` that the spec asserts (§4.4, §8):
only in-frustum items whose chunk status is `Ready`, in reverse sort
order.  Stated for comparison with `ChunkQueue.iter_graphics`, which
filters on graphics presence instead. -/
def ChunkQueue.iterGraphicsReadySpec (q : ChunkQueue) : List (Vec3 × WorldRenderer.ChunkGraphics) :=
  (q.queue.reverse.filter
      (fun x => x.in_frustrum && decide (x.chunk.status = .Ready))).filterMap
    (fun x => x.chunk.graphics.map (fun g => (x.coords, g)))

/-- Modelled from the spec: `to_local_chunk_coords` of the missing
`world/utils.rs`.  Per spec §3 the world converts a world-absolute block
coordinate into its containing chunk's coordinates plus a local
coordinate in `[0, CHUNK_SIZE)` per axis: floor division and euclidean
remainder by `Chunk::SIZE`. -/
def to_local_chunk_coords (coords : Vec3) : Vec3 × Vec3 :=
  (⟨coords.x / Chunk.SIZE, coords.y / Chunk.SIZE, coords.z / Chunk.SIZE⟩,
   ⟨coords.x % Chunk.SIZE, coords.y % Chunk.SIZE, coords.z % Chunk.SIZE⟩)

/-- Modelled from the spec: `to_chunk_offset` of the missing
`world/utils.rs`; per spec §3/§4.5 a chunk's world offset is its
coordinates scaled by `Chunk::SIZE`, as a float vector. -/
def to_chunk_offset (coords : Vec3) : Vec3q :=
  ⟨(coords.x * Chunk.SIZE : Int), (coords.y * Chunk.SIZE : Int), (coords.z * Chunk.SIZE : Int)⟩

/-- The chunk map of a `World`: the
`HashMap<ChunkCoords, Rc<RefCell<Chunk>>>` as a partial map. -/
abbrev ChunkMap := Vec3 → Option Chunk

/-- Point update of the chunk map: apply `Chunk::invalidate` to the
chunk at `c`, if one is loaded (the `if let Some(mut chunk) = ...` of
`World::invalidate_neighbors`). -/
def invalidateChunkAt (chunks : ChunkMap) (c : Vec3) (new_status : ChunkStatus) : ChunkMap :=
  fun c' => if c' = c then (chunks c).map (fun ch => ch.invalidate new_status) else chunks c'

/-- The 26 neighbor offsets walked by the `-1..=1` triple loop of
`World::invalidate_neighbors`, in loop order, skipping the zero offset. -/
def neighborOffsets : List Vec3 :=
  ([-1, 0, 1] : List Int).flatMap fun x =>
    ([-1, 0, 1] : List Int).flatMap fun y =>
      ([-1, 0, 1] : List Int).filterMap fun z =>
        if x ≠ 0 ∨ y ≠ 0 ∨ z ≠ 0 then some ⟨x, y, z⟩ else none

/-- Embeds `World::invalidate_neighbors` from `world.rs`, on the chunk map:
invalidate each loaded chunk among the 26 neighbors of `chunk_coords`. -/
def invalidate_neighbors (chunks : ChunkMap) (chunk_coords : Vec3)
    (new_status : ChunkStatus) : ChunkMap :=
  neighborOffsets.foldl
    (fun m off => invalidateChunkAt m (chunk_coords + off) new_status) chunks

/-- A `World` processing-queue entry.  In the Rust code this is a
`ChunkQueueItem` whose chunk handle is an `Rc` alias of the map entry
for the same coordinates (`World::load_chunk` inserts the same `Rc` into
both); the alias is embedded as the coordinate key, and every chunk
access of the update loop goes through the authoritative map. -/
structure WorldQueueItem where
  coords : Vec3
  in_frustrum : Bool
deriving DecidableEq, Repr

/-- The `World` struct of `world.rs`.  `render_queue` holds `Rc` clones
of chunk graphics handles; a handle is embedded as the coordinates of
the owning chunk (between two `update` calls no operation replaces a
chunk's graphics, so the owner's current handle is the cloned one). -/
structure World where
  chunks : ChunkMap
  queue : List WorldQueueItem
  queue_needs_sort : Bool
  queue_point_of_view : Vec3
  render_queue : List Vec3
  prev_cam_chunk_coords : Vec3
  prev_cam_block_coords : Vec3

/-- Embeds `World::new` from `world.rs` (GPU context and generator handle
dropped; the generator enters `update` as a parameter). -/
def World.new : World where
  chunks := fun _ => none
  queue := []
  queue_needs_sort := false
  queue_point_of_view := ⟨0, 0, 0⟩
  render_queue := []
  prev_cam_chunk_coords := ⟨0, 0, 0⟩
  prev_cam_block_coords := ⟨0, 0, 0⟩

/-- Embeds `ChunkQueue::insert` as performed on the world's processing queue
(chunk handle embedded as the coordinate key): returns the new item list
and dirty flag. -/
def worldQueueInsert (queue : List WorldQueueItem) (needs_sort : Bool) (coords : Vec3) :
    List WorldQueueItem × Bool :=
  if queue.any (fun x => decide (x.coords = coords)) then (queue, needs_sort)
  else (queue ++ [⟨coords, false⟩], true)

/-- Embeds `World::load_chunk` from `world.rs`: return early if a chunk is
already loaded at these coordinates; otherwise create a fresh chunk and
insert it into both the map and the processing queue. -/
def World.load_chunk (w : World) (coords : Vec3) : World :=
  if (w.chunks coords).isSome then w
  else
    let qi := worldQueueInsert w.queue w.queue_needs_sort coords
    { w with
      chunks := fun c => if c = coords then some Chunk.new else w.chunks c
      queue := qi.1
      queue_needs_sort := qi.2 }

/-- Embeds `World::borrow_chunk` from `world.rs`. -/
def World.borrow_chunk (w : World) (coords : Vec3) : Option Chunk := w.chunks coords

/-- Embeds `World::get_block` from `world.rs`.  `Cell::get_block` resolves the
id in the static block table of the missing `world/blocks.rs`, so the
block value is represented by its id. -/
def World.get_block (w : World) (coords : Vec3) : Option BlockId :=
  (w.chunks (to_local_chunk_coords coords).1).map
    (fun chunk => (chunk.data (to_local_chunk_coords coords).2).block_id)

/-- Embeds `World::set_block` from `world.rs`: if the containing chunk is
loaded, write the block id into its cell, invalidate it to
`LightmapOutdated`, and invalidate its 26 neighbors likewise; otherwise
do nothing. -/
def World.set_block (w : World) (coords : Vec3) (block_id : BlockId) : World :=
  let cc := (to_local_chunk_coords coords).1
  let bc := (to_local_chunk_coords coords).2
  match w.chunks cc with
  | none => w
  | some chunk =>
    let chunk1 : Chunk :=
      { chunk with
        data := fun b => if b = bc then { chunk.data b with block_id := block_id }
                         else chunk.data b }
    let chunk2 := chunk1.invalidate .LightmapOutdated
    let m1 : ChunkMap := fun c => if c = cc then some chunk2 else w.chunks c
    { w with chunks := invalidate_neighbors m1 cc .LightmapOutdated }

/-- The `ChunkMeshes` record produced by `ChunkMeshes::generate` of the
missing `world/mesh.rs` (interface per spec §6). -/
structure ChunkMeshes where
  solid_vertices : List Vertex
  water_vertices : List Vertex
  water_faces : List Face
deriving DecidableEq, Repr

/-- The collaborators and per-call inputs of `World::update`, embedded
as explicit parameters:

* `gen` — the `Generator` (spec §6): pure cell population per chunk
  coordinates, the seed being internal to the function;
* `recalc` — `recalculate_light` (spec §6): rewrites the light fields of
  the chunk being processed, reading the world's chunk map;
* `meshGen` — `ChunkMeshes::generate` (spec §6): pure function of chunk
  and neighbor data;
* `frustrum` — the camera's frustum for this call;
* `elapsed k` — the wall-clock time already spent when the budget check
  after the `k`-th processed item runs (`Instant::now() - update_start`);
* `budget` — the `MAX_UPDATE_TIME` constant;
* `cam_position`, `cam_chunk_coords`, `cam_block_coords` — the camera
  position and its chunk/block-granularity coordinates
  (`get_chunk_and_block_coords` of the missing `world/utils.rs` applied
  outside the embedding). -/
structure UpdateEnv where
  gen : Vec3 → Vec3 → Cell
  recalc : ChunkMap → Vec3 → Chunk → Chunk
  meshGen : ChunkMap → Chunk → Vec3 → ChunkMeshes
  frustrum : Frustrum
  elapsed : Nat → Rat
  budget : Rat
  cam_position : Vec3q
  cam_chunk_coords : Vec3
  cam_block_coords : Vec3

/-- Embeds `World::create_chunk_graphics` from `world.rs`: generate the chunk's
meshes; if both vertex lists are empty return no graphics, otherwise
build the graphics record (solid mesh with default quad indices, water
mesh with per-face indices, chunk offset uniform, unsorted water
faces). -/
def create_chunk_graphics (env : UpdateEnv) (chunks : ChunkMap) (coords : Vec3)
    (chunk : Chunk) : Option WorldRenderer.ChunkGraphics :=
  let meshes := env.meshGen chunks chunk coords
  if meshes.water_vertices.isEmpty && meshes.solid_vertices.isEmpty then none
  else
    some
      { solid_mesh := ChunkMesh.new meshes.solid_vertices
          (Face.generate_default_indices (meshes.solid_vertices.length * 4))
        water_mesh := ChunkMesh.new meshes.water_vertices
          (Face.generate_indices meshes.water_faces)
        offset := to_chunk_offset coords
        graphics_data := { water_faces := meshes.water_faces, water_faces_unsorted := true } }

/-- First stage of a visit in the `World::update` loop
(`world.rs:164-169`): if the chunk is `NotGenerated`, generate its
cells, recalculate its light, invalidate the 26 neighbors to
`LightmapOutdated`, and set its status to `LightmapOutdated`.  Returns
the updated chunk map (neighbor invalidations) and the borrowed chunk. -/
def visitGenStage (env : UpdateEnv) (chunks : ChunkMap) (coords : Vec3) (chunk : Chunk) :
    ChunkMap × Chunk :=
  if chunk.status = .NotGenerated then
    let generated := { chunk with data := env.gen coords }
    let lit := env.recalc chunks coords generated
    (invalidate_neighbors chunks coords .LightmapOutdated,
     { lit with status := .LightmapOutdated })
  else (chunks, chunk)

/-- Second stage of a visit (`world.rs:171-174`): if the chunk is
`LightmapOutdated`, recalculate its light and advance to
`GraphicsOutdated`. -/
def visitLightStage (env : UpdateEnv) (chunks : ChunkMap) (coords : Vec3) (chunk : Chunk) :
    Chunk :=
  if chunk.status = .LightmapOutdated then
    { env.recalc chunks coords chunk with status := .GraphicsOutdated }
  else chunk

/-- Third stage of a visit (`world.rs:176-180`): if the chunk is
`GraphicsOutdated`, rebuild its graphics and advance to `Ready`. -/
def visitMeshStage (env : UpdateEnv) (chunks : ChunkMap) (coords : Vec3) (chunk : Chunk) :
    Chunk :=
  if chunk.status = .GraphicsOutdated then
    { chunk with graphics := create_chunk_graphics env chunks coords chunk, status := .Ready }
  else chunk

/-- Water-face re-sort step of a visit (`world.rs:182-189`): if the
chunk has graphics whose water faces are flagged unsorted, re-sort them
against the camera position relative to the chunk offset. -/
def visitWaterSortStage (env : UpdateEnv) (coords : Vec3) (chunk : Chunk) : Chunk :=
  match chunk.graphics with
  | some graphics =>
    if graphics.needs_water_faces_sorting then
      let relative_cam_pos := env.cam_position - to_chunk_offset coords
      { chunk with graphics := some (graphics.sort_water_faces relative_cam_pos) }
    else chunk
  | none => chunk

/-- One full visit of the `World::update` loop body (`world.rs:161-189`)
for the chunk at `coords`: the three cascading status stages followed by
the water-face re-sort, with the mutably borrowed chunk written back to
the map.  A coordinate with no loaded chunk is skipped (in the Rust code
the queue handle aliases a map entry, so this case cannot arise). -/
def processVisit (env : UpdateEnv) (chunks : ChunkMap) (coords : Vec3) : ChunkMap :=
  match chunks coords with
  | none => chunks
  | some chunk =>
    let afterGen := visitGenStage env chunks coords chunk
    let lit := visitLightStage env afterGen.1 coords afterGen.2
    let meshed := visitMeshStage env afterGen.1 coords lit
    let final := visitWaterSortStage env coords meshed
    fun c => if c = coords then some final else afterGen.1 c

/-- The time-budgeted iteration of `World::update` (`world.rs:161-195`):
process the queued coordinates in order; after each item, stop if the
elapsed time exceeds the budget.  `k` counts the items already
processed. -/
def updateLoop (env : UpdateEnv) (chunks : ChunkMap) : List Vec3 → Nat → ChunkMap
  | [], _ => chunks
  | coords :: rest, k =>
    let chunks' := processVisit env chunks coords
    if env.budget < env.elapsed (k + 1) then chunks'
    else updateLoop env chunks' rest (k + 1)

/-- Set the `water_faces_unsorted` flag of the chunk's graphics at `c`
(one iteration of the render-queue loop in
`World::check_what_is_to_sort`). -/
def markWaterUnsortedAt (chunks : ChunkMap) (c : Vec3) : ChunkMap :=
  fun c' =>
    if c' = c then
      (chunks c).map fun ch =>
        match ch.graphics with
        | some g =>
          { ch with
            graphics :=
              some { g with
                     graphics_data := { g.graphics_data with water_faces_unsorted := true } } }
        | none => ch
    else chunks c'

/-- First half of `World::check_what_is_to_sort`: if the camera's chunk
coordinate moved, mark the processing queue unsorted and refresh the
cache. -/
def World.markChunkMove (env : UpdateEnv) (w : World) : World :=
  if env.cam_chunk_coords ≠ w.prev_cam_chunk_coords then
    { w with queue_needs_sort := true, prev_cam_chunk_coords := env.cam_chunk_coords }
  else w

/-- Second half of `World::check_what_is_to_sort`: if the camera's block
coordinate moved, flag the water faces of every rendered chunk as
unsorted and refresh the cache. -/
def World.markBlockMove (env : UpdateEnv) (w : World) : World :=
  if env.cam_block_coords ≠ w.prev_cam_block_coords then
    { w with
      chunks := w.render_queue.foldl markWaterUnsortedAt w.chunks
      prev_cam_block_coords := env.cam_block_coords }
  else w

/-- Embeds `World::check_what_is_to_sort` from `world.rs`: on a chunk-granular
camera move, mark the processing queue unsorted; on a block-granular
move, flag every rendered chunk's water faces as unsorted.  The graphics
handles held by `render_queue` are embedded as owner coordinates. -/
def World.check_what_is_to_sort (env : UpdateEnv) (w : World) : World :=
  World.markBlockMove env (World.markChunkMove env w)

/-- Key order of the world queue sort (ascending squared distance from
the camera chunk coordinates). -/
def worldItemLe (cam_chunk_coords : Vec3) (a b : WorldQueueItem) : Bool :=
  decide (cam_chunk_coords.distance2 a.coords ≤ cam_chunk_coords.distance2 b.coords)

/-- Step 2 of `World::update` (`world.rs:153-157`): sort the processing
queue by distance from the camera chunk if it is flagged unsorted
(`ChunkQueue::sort` applied to the world's queue). -/
def World.sortQueueIfNeeded (w : World) : World :=
  if w.queue_needs_sort then
    { w with
      queue := w.queue.mergeSort (worldItemLe w.prev_cam_chunk_coords)
      queue_needs_sort := false
      queue_point_of_view := w.prev_cam_chunk_coords }
  else w

/-- Step 3 of `World::update` (`world.rs:159`): recompute every queue
item's `in_frustrum` flag (`ChunkQueue::clip_to_frustrum`). -/
def World.clipQueue (env : UpdateEnv) (w : World) : World :=
  { w with
    queue := w.queue.map
      (fun item => { item with in_frustrum := env.frustrum (chunk_aabb item.coords) }) }

/-- Steps 1-3 of `World::update` (`world.rs:146-159`): camera-movement
bookkeeping, the conditional distance sort of the processing queue, and
the frustum re-clip. -/
def World.preLoop (env : UpdateEnv) (w : World) : World :=
  World.clipQueue env (World.sortQueueIfNeeded (World.check_what_is_to_sort env w))

/-- The coordinates `World::update` iterates over: the in-frustum items
of the clipped queue, in sorted order (`ChunkQueue::iter`). -/
def World.visitOrder (env : UpdateEnv) (w : World) : List Vec3 :=
  (((World.preLoop env w).queue).filter (fun item => item.in_frustrum)).map
    (fun item => item.coords)

/-- Embeds `World::update` from `world.rs`: camera bookkeeping, conditional
sort, frustum clip, the time-budgeted status-advancing loop, and the
render-queue rebuild from `iter_graphics` (reverse order, in-frustum,
graphics present; the `Rc` clone pushed per item is embedded as the
owning chunk's coordinates). -/
def World.update (env : UpdateEnv) (w : World) : World :=
  let w3 := World.preLoop env w
  let order := World.visitOrder env w
  let chunks' := updateLoop env w3.chunks order 0
  { w3 with
    chunks := chunks'
    render_queue :=
      (w3.queue.reverse.filter (fun item => item.in_frustrum)).filterMap
        (fun item =>
          match chunks' item.coords with
          | some ch => if ch.graphics.isSome then some item.coords else none
          | none => none) }

/-! ## Concrete example states used by counterexamples and witnesses -/

/-- Origin coordinates. -/
def v0 : Vec3 := ⟨0, 0, 0⟩

/-- A concrete graphics handle (one water face, empty meshes). -/
def exGraphics : WorldRenderer.ChunkGraphics where
  solid_mesh := ChunkMesh.new [] []
  water_mesh := ChunkMesh.new [] []
  offset := ⟨0, 0, 0⟩
  graphics_data := { water_faces := [], water_faces_unsorted := false }

/-- A chunk holding a stale graphics handle: its mesh was built earlier
(graphics present), but the chunk has since been invalidated back to
`LightmapOutdated` — the state produced by `set_block` on a `Ready`
chunk. -/
def exStaleChunk : Chunk where
  data := fun _ => { block_id := BlockId.air, sun_light := 0, block_light := 0 }
  graphics := some exGraphics
  status := .LightmapOutdated

/-- A queue holding only `exStaleChunk`, flagged in frustum. -/
def exStaleQueue : ChunkQueue where
  queue := [⟨v0, exStaleChunk, true⟩]
  needs_sort := true
  point_of_view := v0

/-- A fully processed chunk: status `Ready`, graphics present. -/
def exReadyChunk : Chunk where
  data := fun _ => { block_id := BlockId.air, sun_light := 0, block_light := 0 }
  graphics := some exGraphics
  status := .Ready

/-- An update environment with trivial collaborators: air generator,
identity light pass, empty meshes, all-pass frustum, zero elapsed time
against a unit budget, camera at the origin. -/
def exEnv : UpdateEnv where
  gen := fun _ _ => { block_id := BlockId.air, sun_light := 0, block_light := 0 }
  recalc := fun _ _ chunk => chunk
  meshGen := fun _ _ _ => ⟨[], [], []⟩
  frustrum := fun _ => true
  elapsed := fun _ => 0
  budget := 1
  cam_position := ⟨0, 0, 0⟩
  cam_chunk_coords := v0
  cam_block_coords := v0

/-- Like `exEnv` but the mesh generator emits one solid vertex. -/
def exEnvSolid : UpdateEnv :=
  { exEnv with
    meshGen := fun _ _ _ => ⟨[⟨⟨0, 0, 0⟩, (0, 0), ⟨0, 0, 0⟩⟩], [], []⟩ }

/-- A world holding one freshly loaded chunk at the origin, already
queued and with the queue considered sorted. -/
def exWorld1 : World :=
  { World.new with
    chunks := fun c => if c = v0 then some Chunk.new else none
    queue := [⟨v0, false⟩] }

/-- A world with a fresh chunk at the origin and a `Ready` neighbor. -/
def exWorld2 : World :=
  { World.new with
    chunks := fun c =>
      if c = v0 then some Chunk.new
      else if c = ⟨1, 0, 0⟩ then some exReadyChunk
      else none }

/-! ## Theorems -/

theorem faceLe_trans (a b c : Face) (hab : Rendering.faceLe a b) (hbc : Rendering.faceLe b c) :
    Rendering.faceLe a c := by
  simp only [Rendering.faceLe, decide_eq_true_eq] at *
  exact le_trans hbc hab

theorem faceLe_total (a b : Face) : Rendering.faceLe a b || Rendering.faceLe b a := by
  simp only [Rendering.faceLe, Bool.or_eq_true, decide_eq_true_eq]
  exact le_total b.distance a.distance

theorem replaceFirstChunk_map_key (l : List ChunkQueueItem) (coords : Vec3) (chunk : Chunk) :
    ((replaceFirstChunk l coords chunk).map fun x => (x.coords, x.in_frustrum)) =
      (l.map fun x => (x.coords, x.in_frustrum)) := by
  induction l with
  | nil => rfl
  | cons x xs ih =>
    simp only [replaceFirstChunk]
    split
    · simp
    · simpa using ih

theorem replaceFirstChunk_map_coords (l : List ChunkQueueItem) (coords : Vec3) (chunk : Chunk) :
    ((replaceFirstChunk l coords chunk).map fun x => x.coords) = l.map fun x => x.coords := by
  have h := replaceFirstChunk_map_key l coords chunk
  have h1 : ∀ m : List ChunkQueueItem,
      (m.map fun x => x.coords) = (m.map fun x => (x.coords, x.in_frustrum)).map Prod.fst := by
    intro m; simp
  rw [h1, h1, h]

theorem replaceFirstChunk_idem (l : List ChunkQueueItem) (coords : Vec3) (chunk : Chunk) :
    replaceFirstChunk (replaceFirstChunk l coords chunk) coords chunk =
      replaceFirstChunk l coords chunk := by
  induction l with
  | nil => rfl
  | cons x xs ih =>
    simp only [replaceFirstChunk]
    split
    · simp only [replaceFirstChunk]
      split
      · rfl
      · simp_all
    · simp only [replaceFirstChunk]
      split
      · simp_all
      · rw [ih]

theorem replaceFirstChunk_append_last (l : List ChunkQueueItem) (coords : Vec3) (chunk : Chunk)
    (b : Bool) (h : l.all (fun x => decide (x.coords ≠ coords))) :
    replaceFirstChunk (l ++ [⟨coords, chunk, b⟩]) coords chunk = l ++ [⟨coords, chunk, b⟩] := by
  induction l with
  | nil => simp [replaceFirstChunk]
  | cons x xs ih =>
    simp only [List.all_cons, Bool.and_eq_true, decide_eq_true_eq] at h
    simp only [List.cons_append, replaceFirstChunk, List.append_eq]
    rw [if_neg h.1, ih h.2]

theorem replaceFirstChunk_spec (l : List ChunkQueueItem) (coords : Vec3) (chunk : Chunk)
    (hex : ∃ x ∈ l, x.coords = coords) :
    ∃ i, ∃ h : i < l.length,
      (l.get ⟨i, h⟩).coords = coords ∧
      (∀ j, ∀ hj : j < l.length, j < i → (l.get ⟨j, hj⟩).coords ≠ coords) ∧
      replaceFirstChunk l coords chunk =
        l.set i { l.get ⟨i, h⟩ with chunk := chunk } := by
  induction l with
  | nil => simp at hex
  | cons x xs ih =>
    by_cases hx : x.coords = coords
    · refine ⟨0, Nat.succ_pos _, hx, fun j hj hji => by omega, ?_⟩
      simp [replaceFirstChunk, hx]
    · have hex' : ∃ y ∈ xs, y.coords = coords := by
        obtain ⟨y, hy, hyc⟩ := hex
        rcases List.mem_cons.mp hy with rfl | hy'
        · exact absurd hyc hx
        · exact ⟨y, hy', hyc⟩
      obtain ⟨i, h, h1, h2, h3⟩ := ih hex'
      refine ⟨i + 1, Nat.succ_lt_succ h, by simpa using h1, ?_, ?_⟩
      · intro j hj hji
        cases j with
        | zero => simpa using hx
        | succ j' =>
          have := h2 j' (Nat.lt_of_succ_lt_succ hj) (Nat.lt_of_succ_lt_succ hji)
          simpa using this
      · simp only [replaceFirstChunk, if_neg hx, List.get_cons_succ, List.set_cons_succ]
        rw [h3]

/-- C9: `ChunkQueue::insert(coords, chunk)` is an idempotent upsert: a
present coordinate only has the chunk handle of its (first) matching
entry replaced in place — the queue becomes `set i` of that entry with
the new handle, so every other entry is untouched and no new entry or
dirty flag appears — an absent coordinate is appended and the dirty flag
set, and at most one entry per coordinate is preserved. -/
theorem C9_insert_upsert (q : ChunkQueue) (coords : Vec3) (chunk : Chunk) :
    ((∃ x ∈ q.queue, x.coords = coords) →
        (q.insert coords chunk).needs_sort = q.needs_sort ∧
        ((q.insert coords chunk).queue.map fun x => (x.coords, x.in_frustrum)) =
          (q.queue.map fun x => (x.coords, x.in_frustrum)) ∧
        ∃ i, ∃ h : i < q.queue.length,
          (q.queue.get ⟨i, h⟩).coords = coords ∧
          (∀ j, ∀ hj : j < q.queue.length, j < i → (q.queue.get ⟨j, hj⟩).coords ≠ coords) ∧
          (q.insert coords chunk).queue =
            q.queue.set i { q.queue.get ⟨i, h⟩ with chunk := chunk }) ∧
    ((¬ ∃ x ∈ q.queue, x.coords = coords) →
        (q.insert coords chunk).queue = q.queue ++ [⟨coords, chunk, false⟩] ∧
        (q.insert coords chunk).needs_sort = true) ∧
    ((q.queue.map fun x => x.coords).Nodup →
        ((q.insert coords chunk).queue.map fun x => x.coords).Nodup) ∧
    (q.insert coords chunk).insert coords chunk = q.insert coords chunk := by
  have hany : q.queue.any (fun x => decide (x.coords = coords)) = true ↔
      ∃ x ∈ q.queue, x.coords = coords := by
    simp [List.any_eq_true]
  have hpos : q.queue.any (fun x => decide (x.coords = coords)) = true →
      q.insert coords chunk = { q with queue := replaceFirstChunk q.queue coords chunk } := by
    intro h
    unfold ChunkQueue.insert
    rw [if_pos h]
  have hneg : q.queue.any (fun x => decide (x.coords = coords)) = false →
      q.insert coords chunk =
        { q with queue := q.queue ++ [⟨coords, chunk, false⟩], needs_sort := true } := by
    intro h
    unfold ChunkQueue.insert
    rw [if_neg (by simp [h])]
  refine ⟨?_, ?_, ?_, ?_⟩
  · intro hex
    rw [hpos (hany.mpr hex)]
    exact ⟨rfl, replaceFirstChunk_map_key _ _ _, replaceFirstChunk_spec _ _ _ hex⟩
  · intro hex
    have h : q.queue.any (fun x => decide (x.coords = coords)) = false := by
      cases hb : q.queue.any (fun x => decide (x.coords = coords)) with
      | false => rfl
      | true => exact absurd (hany.mp hb) hex
    rw [hneg h]
    exact ⟨rfl, rfl⟩
  · intro hnd
    cases hb : q.queue.any (fun x => decide (x.coords = coords)) with
    | false =>
      rw [hneg hb]
      have hnotmem : coords ∉ q.queue.map fun x => x.coords := by
        intro hc
        obtain ⟨x, hx, hxc⟩ := List.mem_map.mp hc
        have := List.any_eq_false.mp hb x hx
        simp [hxc] at this
      have hmap : ((q.queue ++ [(⟨coords, chunk, false⟩ : ChunkQueueItem)]).map
          fun x => x.coords) = (q.queue.map fun x => x.coords) ++ [coords] := by simp
      rw [hmap]
      exact List.Nodup.append hnd (List.nodup_singleton _)
        (fun a ha hb' => by
          simp only [List.mem_singleton] at hb'
          exact hnotmem (hb' ▸ ha))
    | true =>
      rw [hpos hb, replaceFirstChunk_map_coords]
      exact hnd
  · cases hb : q.queue.any (fun x => decide (x.coords = coords)) with
    | false =>
      rw [hneg hb]
      have hall : q.queue.all (fun x => decide (x.coords ≠ coords)) = true := by
        simp only [List.all_eq_true, decide_eq_true_eq]
        intro x hx hc
        have := List.any_eq_false.mp hb x hx
        simp [hc] at this
      have hany2 : ((q.queue ++ [(⟨coords, chunk, false⟩ : ChunkQueueItem)]).any
          fun x => decide (x.coords = coords)) = true := by
        simp
      unfold ChunkQueue.insert
      rw [if_pos hany2, replaceFirstChunk_append_last _ _ _ _ hall]
    | true =>
      rw [hpos hb]
      have hany2 : (replaceFirstChunk q.queue coords chunk).any
          (fun x => decide (x.coords = coords)) = true := by
        have hmap := replaceFirstChunk_map_coords q.queue coords chunk
        simp only [List.any_eq_true, decide_eq_true_eq] at hb ⊢
        obtain ⟨x, hx, hxc⟩ := hb
        have hcm : coords ∈ (replaceFirstChunk q.queue coords chunk).map fun x => x.coords := by
          rw [hmap]
          exact List.mem_map.mpr ⟨x, hx, hxc⟩
        obtain ⟨y, hy, hyc⟩ := List.mem_map.mp hcm
        exact ⟨y, hy, hyc⟩
      unfold ChunkQueue.insert
      rw [if_pos hany2, replaceFirstChunk_idem]

/-- Witness for C9 at concrete inputs, exercising both branches:
inserting into the empty queue appends the item and sets the dirty
flag; re-inserting the now-present coordinate with a different chunk
keeps the dirty flag and replaces only the handle in place (the single
entry's chunk becomes the stale chunk: graphics handle present, status
`LightmapOutdated`). -/
theorem C9_witness :
    (¬ ∃ x ∈ ChunkQueue.new.queue, x.coords = v0) ∧
    (ChunkQueue.new.insert v0 Chunk.new).queue =
      ChunkQueue.new.queue ++ [⟨v0, Chunk.new, false⟩] ∧
    (ChunkQueue.new.insert v0 Chunk.new).needs_sort = true ∧
    (∃ x ∈ (ChunkQueue.new.insert v0 Chunk.new).queue, x.coords = v0) ∧
    ((ChunkQueue.new.insert v0 Chunk.new).insert v0 exStaleChunk).needs_sort =
      (ChunkQueue.new.insert v0 Chunk.new).needs_sort ∧
    (((ChunkQueue.new.insert v0 Chunk.new).insert v0 exStaleChunk).queue.map
        fun x => (x.coords, x.in_frustrum, x.chunk.graphics.isSome, x.chunk.status)) =
      [(v0, false, true, .LightmapOutdated)] := by
  have h : ¬ ∃ x ∈ ChunkQueue.new.queue, x.coords = v0 := by simp [ChunkQueue.new]
  have h1 := (C9_insert_upsert ChunkQueue.new v0 Chunk.new).2.1 h
  have hex : ∃ x ∈ (ChunkQueue.new.insert v0 Chunk.new).queue, x.coords = v0 := by
    rw [h1.1]
    exact ⟨⟨v0, Chunk.new, false⟩, by simp [ChunkQueue.new], rfl⟩
  have h2 := (C9_insert_upsert (ChunkQueue.new.insert v0 Chunk.new) v0 exStaleChunk).1 hex
  exact ⟨h, h1.1, h1.2, hex, h2.1, by decide⟩

theorem itemLe_trans (p : Vec3) (a b c : ChunkQueueItem)
    (hab : itemLe p a b) (hbc : itemLe p b c) : itemLe p a c := by
  simp only [itemLe, decide_eq_true_eq] at *
  exact le_trans hab hbc

theorem itemLe_total (p : Vec3) (a b : ChunkQueueItem) : itemLe p a b || itemLe p b a := by
  simp only [itemLe, Bool.or_eq_true, decide_eq_true_eq]
  exact le_total _ _

/-- C2 counterexample: the claim restricts `iter_graphics()` to items of
status `Ready`, but the code filters on graphics presence instead.  On a
queue holding one in-frustum chunk that keeps a stale graphics handle
while invalidated to `LightmapOutdated`, the claimed reading yields
nothing while `iter_graphics` yields the stale handle. -/
theorem C2_counterexample :
    (exStaleQueue.sort v0).iter_graphics ≠ (exStaleQueue.sort v0).iterGraphicsReadySpec ∧
    (exStaleQueue.sort v0).iter_graphics ≠ [] := by
  have hq : exStaleQueue.queue.mergeSort (itemLe v0) = exStaleQueue.queue := by
    have hsing : exStaleQueue.queue = [⟨v0, exStaleChunk, true⟩] := rfl
    rw [hsing]
    exact List.perm_singleton.mp (hsing ▸ List.mergeSort_perm exStaleQueue.queue (itemLe v0))
  constructor <;>
    simp [ChunkQueue.iter_graphics, ChunkQueue.iterGraphicsReadySpec, ChunkQueue.sort, hq,
      exStaleQueue, exStaleChunk]

/-- C2 (amended: `iter_graphics()` is restricted to in-frustum items
whose chunk has a graphics handle present, not to status `Ready`): after
`sort(p)`, `iter()` yields exactly the in-frustum items (a permutation
of the pre-sort `iter()`), in non-decreasing squared distance of their
coordinates from `p`, and `iter_graphics()` yields exactly the reverse
of that sorted order restricted to in-frustum items with a graphics
handle, yielding each item's handle. -/
theorem C2_sort_iter_orders (q : ChunkQueue) (p : Vec3) :
    ((q.sort p).iter).Perm q.iter ∧
    ((q.sort p).iter).Pairwise (fun a b => p.distance2 a.1 ≤ p.distance2 b.1) ∧
    (q.sort p).iter_graphics =
      (((q.sort p).queue.filter fun x => x.in_frustrum).filterMap
        (fun x => x.chunk.graphics.map fun g => (x.coords, g))).reverse := by
  refine ⟨?_, ?_, ?_⟩
  · exact ((List.mergeSort_perm q.queue (itemLe p)).filter _).map _
  · have hs := @List.sorted_mergeSort ChunkQueueItem (itemLe p) (itemLe_trans p)
      (fun a b => itemLe_total p a b) q.queue
    have hsub : ((q.sort p).queue.filter fun x => x.in_frustrum).Sublist (q.sort p).queue :=
      List.filter_sublist _
    have hp : ((q.sort p).queue.filter fun x => x.in_frustrum).Pairwise
        (fun a b => itemLe p a b = true) :=
      List.Pairwise.sublist hsub hs
    refine List.Pairwise.map _ ?_ hp
    intro a b hab
    simpa [itemLe, decide_eq_true_eq] using hab
  · unfold ChunkQueue.iter_graphics
    rw [List.filter_reverse, List.filterMap_reverse]

theorem Chunk.invalidate_invalidate (c : Chunk) (s : ChunkStatus) :
    (c.invalidate s).invalidate s = c.invalidate s := by
  unfold Chunk.invalidate
  simp [ChunkStatus.min_idem_right]

/-- Holds when `c` is one of the 26 geometric neighbors of `v`. -/
def isNeighbor (v c : Vec3) : Prop := ∃ off ∈ neighborOffsets, c = v + off

instance (v c : Vec3) : Decidable (isNeighbor v c) :=
  inferInstanceAs (Decidable (∃ off ∈ neighborOffsets, c = v + off))

theorem neighborOffsets_ne_zero : ∀ off ∈ neighborOffsets, off ≠ (⟨0, 0, 0⟩ : Vec3) := by
  decide

theorem add_ne_self_of_mem_neighborOffsets (v : Vec3) {off : Vec3}
    (h : off ∈ neighborOffsets) : v + off ≠ v := by
  intro he
  apply neighborOffsets_ne_zero off h
  cases v with
  | mk vx vy vz =>
    cases off with
    | mk ox oy oz =>
      simp only [Vec3.add_def, Vec3.mk.injEq] at he
      simp only [Vec3.mk.injEq]
      omega

theorem not_isNeighbor_self (v : Vec3) : ¬ isNeighbor v v := by
  rintro ⟨off, hm, he⟩
  exact add_ne_self_of_mem_neighborOffsets v hm he.symm

theorem foldl_invalidateChunkAt_eq (offs : List Vec3) (m : ChunkMap) (v : Vec3)
    (s : ChunkStatus) (c : Vec3) :
    ((offs.foldl (fun m' off => invalidateChunkAt m' (v + off) s) m) c = m c ∧
        ¬ ∃ off ∈ offs, c = v + off) ∨
    ((offs.foldl (fun m' off => invalidateChunkAt m' (v + off) s) m) c =
        (m c).map (fun ch => ch.invalidate s) ∧ ∃ off ∈ offs, c = v + off) := by
  induction offs generalizing m with
  | nil => exact Or.inl ⟨rfl, by simp⟩
  | cons off0 offs ih =>
    simp only [List.foldl_cons]
    by_cases hc : c = v + off0
    · have hm1 : (invalidateChunkAt m (v + off0) s) c = (m c).map (fun ch => ch.invalidate s) := by
        simp [invalidateChunkAt, hc]
      rcases ih (invalidateChunkAt m (v + off0) s) with ⟨h1, _⟩ | ⟨h1, _⟩
      · exact Or.inr ⟨h1.trans hm1, off0, List.mem_cons_self _ _, hc⟩
      · refine Or.inr ⟨h1.trans ?_, off0, List.mem_cons_self _ _, hc⟩
        rw [hm1, Option.map_map]
        exact congrArg (fun f => Option.map f (m c))
          (funext fun ch => Chunk.invalidate_invalidate ch s)
    · have hm1 : (invalidateChunkAt m (v + off0) s) c = m c := by
        simp [invalidateChunkAt, hc]
      rcases ih (invalidateChunkAt m (v + off0) s) with ⟨h1, h2⟩ | ⟨h1, h2⟩
      · refine Or.inl ⟨h1.trans hm1, ?_⟩
        rintro ⟨off, hmm, he⟩
        rcases List.mem_cons.mp hmm with rfl | hmm'
        · exact hc he
        · exact h2 ⟨off, hmm', he⟩
      · obtain ⟨off, hmm, he⟩ := h2
        exact Or.inr ⟨h1.trans (by rw [hm1]), off, List.mem_cons_of_mem _ hmm, he⟩

theorem invalidate_neighbors_of_not_neighbor {m : ChunkMap} {v c : Vec3} {s : ChunkStatus}
    (h : ¬ isNeighbor v c) : invalidate_neighbors m v s c = m c := by
  rcases foldl_invalidateChunkAt_eq neighborOffsets m v s c with ⟨h1, _⟩ | ⟨_, h2⟩
  · exact h1
  · exact absurd h2 h

theorem invalidate_neighbors_of_neighbor {m : ChunkMap} {v c : Vec3} {s : ChunkStatus}
    (h : isNeighbor v c) :
    invalidate_neighbors m v s c = (m c).map (fun ch => ch.invalidate s) := by
  rcases foldl_invalidateChunkAt_eq neighborOffsets m v s c with ⟨_, h2⟩ | ⟨h1, _⟩
  · exact absurd h h2
  · exact h1

theorem invalidate_neighbors_isSome (m : ChunkMap) (v : Vec3) (s : ChunkStatus) (c : Vec3) :
    (invalidate_neighbors m v s c).isSome = (m c).isSome := by
  by_cases h : isNeighbor v c
  · rw [invalidate_neighbors_of_neighbor h]
    cases m c <;> rfl
  · rw [invalidate_neighbors_of_not_neighbor h]

/-- C5: `Chunk::invalidate(new_status)` sets the status to
`min(current, new_status)`; in particular it never increases the
status and never exceeds `new_status`. -/
theorem C5_invalidate_min (c : Chunk) (new_status : ChunkStatus) :
    (c.invalidate new_status).status = c.status.min new_status ∧
    (c.invalidate new_status).status ≤ c.status ∧
    (c.invalidate new_status).status ≤ new_status :=
  ⟨rfl, ChunkStatus.min_le_left _ _, ChunkStatus.min_le_right _ _⟩

/-- C10: `World::load_chunk` is idempotent — a second call at loaded
coordinates returns the world unchanged — and a first call creates a
chunk whose every cell is air with both light channels zero, status
`NotGenerated`, no graphics, touching no other map entry and appending
one queue entry. -/
theorem visitWaterSortStage_status (env : UpdateEnv) (coords : Vec3) (ch : Chunk) :
    (visitWaterSortStage env coords ch).status = ch.status := by
  unfold visitWaterSortStage
  split
  · split <;> rfl
  · rfl

theorem visitWaterSortStage_graphics_isSome (env : UpdateEnv) (coords : Vec3) (ch : Chunk) :
    (visitWaterSortStage env coords ch).graphics.isSome = ch.graphics.isSome := by
  unfold visitWaterSortStage
  split
  · split
    · rename_i g hg _
      simp [hg]
    · rfl
  · rfl

theorem cascade_status (env : UpdateEnv) (m m1 m2 : ChunkMap) (coords : Vec3) (ch : Chunk) :
    (visitMeshStage env m2 coords
      (visitLightStage env m1 coords (visitGenStage env m coords ch).2)).status = .Ready := by
  cases hst : ch.status <;>
    simp [visitGenStage, visitLightStage, visitMeshStage, hst]

theorem processVisit_self_status (env : UpdateEnv) (m : ChunkMap) (coords : Vec3)
    (h : (m coords).isSome) :
    ((processVisit env m coords) coords).map Chunk.status = some .Ready := by
  obtain ⟨ch, hch⟩ := Option.isSome_iff_exists.mp h
  simp only [processVisit, hch]
  simp [visitWaterSortStage_status, cascade_status]

theorem processVisit_of_none (env : UpdateEnv) {m : ChunkMap} {coords : Vec3}
    (h : m coords = none) : processVisit env m coords = m := by
  unfold processVisit
  rw [h]

theorem visitGenStage_fst_isSome (env : UpdateEnv) (m : ChunkMap) (coords : Vec3) (ch : Chunk)
    (c : Vec3) : ((visitGenStage env m coords ch).1 c).isSome = (m c).isSome := by
  unfold visitGenStage
  split
  · exact invalidate_neighbors_isSome m coords .LightmapOutdated c
  · rfl

theorem visitGenStage_fst_of_ne (env : UpdateEnv) (m : ChunkMap) (coords : Vec3) (ch : Chunk)
    (c : Vec3) :
    (visitGenStage env m coords ch).1 c = m c ∨
    ((visitGenStage env m coords ch).1 c = (m c).map (fun x => x.invalidate .LightmapOutdated) ∧
      isNeighbor coords c ∧ ch.status = .NotGenerated) := by
  unfold visitGenStage
  split
  · rename_i hst
    by_cases hn : isNeighbor coords c
    · exact Or.inr ⟨invalidate_neighbors_of_neighbor hn, hn, hst⟩
    · exact Or.inl (invalidate_neighbors_of_not_neighbor hn)
  · exact Or.inl rfl

theorem processVisit_isSome (env : UpdateEnv) (m : ChunkMap) (coords c : Vec3) :
    ((processVisit env m coords) c).isSome = (m c).isSome := by
  cases hch : m coords with
  | none => rw [processVisit_of_none env hch]
  | some ch =>
    simp only [processVisit, hch]
    by_cases hc : c = coords
    · subst hc
      rw [if_pos rfl, hch]
      rfl
    · rw [if_neg hc]
      exact visitGenStage_fst_isSome env m coords ch c

theorem processVisit_of_ne (env : UpdateEnv) (m : ChunkMap) (coords c : Vec3) (hc : c ≠ coords) :
    processVisit env m coords c = m c ∨
    (processVisit env m coords c = (m c).map (fun x => x.invalidate .LightmapOutdated) ∧
      isNeighbor coords c ∧ (m coords).map Chunk.status = some .NotGenerated) := by
  cases hch : m coords with
  | none =>
    rw [processVisit_of_none env hch]
    exact Or.inl rfl
  | some ch =>
    simp only [processVisit, hch]
    rw [if_neg hc]
    rcases visitGenStage_fst_of_ne env m coords ch c with h | ⟨h1, h2, h3⟩
    · exact Or.inl h
    · exact Or.inr ⟨h1, h2, by simp [h3]⟩

/-- C1 counterexample: the claim says a chunk that was `NotGenerated` at
the start of a visit is not brought to `Ready` in the same pass.  On a
world with one fresh in-frustum chunk and a roomy time budget, a single
`World::update` call takes the chunk all the way from `NotGenerated` to
`Ready`: the three status checks in the loop body cascade. -/
theorem C1_counterexample :
    (exWorld1.chunks v0).map Chunk.status = some .NotGenerated ∧
    World.visitOrder exEnv exWorld1 = [v0] ∧
    ((World.update exEnv exWorld1).chunks v0).map Chunk.status = some .Ready ∧
    ((World.update exEnv exWorld1).chunks v0).map Chunk.status ≠ some .LightmapOutdated := by
  refine ⟨rfl, rfl, ?_, ?_⟩ <;> decide

/-- C1 (amended: a visit advances the chunk through **all** outstanding
stages, not at most one): after the `World::update` loop body visits a
loaded chunk, the chunk's status is `Ready`, whatever stage it started
from. -/
theorem C1_visit_cascades_to_ready (env : UpdateEnv) (m : ChunkMap) (coords : Vec3)
    (h : (m coords).isSome) :
    ((processVisit env m coords) coords).map Chunk.status = some .Ready :=
  processVisit_self_status env m coords h

/-- Witness for the amended C1 at a concrete input: visiting the fresh
origin chunk of `exWorld1` raises it to `Ready`. -/
theorem C1_witness :
    (exWorld1.chunks v0).isSome = true ∧
    ((processVisit exEnv exWorld1.chunks v0) v0).map Chunk.status = some .Ready :=
  ⟨rfl, C1_visit_cascades_to_ready exEnv exWorld1.chunks v0 (by rfl)⟩

theorem visitLightStage_after_gen_status (env : UpdateEnv) (m m1 : ChunkMap) (coords : Vec3)
    (ch : Chunk) (h : ch.status ≠ .Ready) :
    (visitLightStage env m1 coords (visitGenStage env m coords ch).2).status =
      .GraphicsOutdated := by
  cases hst : ch.status with
  | Ready => exact absurd hst h
  | NotGenerated => simp [visitGenStage, visitLightStage, hst]
  | LightmapOutdated => simp [visitGenStage, visitLightStage, hst]
  | GraphicsOutdated => simp [visitGenStage, visitLightStage, hst]

theorem create_chunk_graphics_isSome (env : UpdateEnv) (chunks : ChunkMap) (coords : Vec3)
    (chunk : Chunk) :
    (create_chunk_graphics env chunks coords chunk).isSome =
      !((env.meshGen chunks chunk coords).water_vertices.isEmpty &&
        (env.meshGen chunks chunk coords).solid_vertices.isEmpty) := by
  unfold create_chunk_graphics
  cases h : ((env.meshGen chunks chunk coords).water_vertices.isEmpty &&
      (env.meshGen chunks chunk coords).solid_vertices.isEmpty) <;>
    simp [h]

/-- C3 counterexample: the claim requires the graphics handle to be
present only when the status is `Ready`, after every operation including
`invalidate`.  But `Chunk::invalidate` regresses the status without
touching the handle: invalidating a `Ready` chunk with graphics leaves a
present handle on a `LightmapOutdated` chunk. -/
theorem C3_counterexample :
    exReadyChunk.status = .Ready ∧
    exReadyChunk.graphics.isSome = true ∧
    (exReadyChunk.invalidate .LightmapOutdated).graphics.isSome = true ∧
    (exReadyChunk.invalidate .LightmapOutdated).status ≠ .Ready := by
  refine ⟨rfl, rfl, rfl, ?_⟩
  decide

/-- C3 (amended: the graphics handle tracks the most recent meshing
rather than the current status): a fresh chunk has no handle;
`invalidate` and `set_block` leave handles untouched while regressing
status, so a handle may outlive `Ready`; and an update visit of a chunk
that is not yet `Ready` re-meshes it, ending at status `Ready` with the
handle present iff the regenerated mesh has at least one solid or water
vertex, while a visit of a `Ready` chunk preserves handle presence. -/
theorem C3_graphics_presence :
    Chunk.new.graphics = none ∧
    (∀ (ch : Chunk) (s : ChunkStatus), (ch.invalidate s).graphics = ch.graphics) ∧
    (∀ (w : World) (coords : Vec3) (id : BlockId) (c : Vec3),
      ((w.set_block coords id).chunks c).map (fun ch => ch.graphics) =
        (w.chunks c).map (fun ch => ch.graphics)) ∧
    (∀ (env : UpdateEnv) (m : ChunkMap) (coords : Vec3) (ch : Chunk),
      m coords = some ch → ch.status ≠ .Ready →
      ((processVisit env m coords) coords).map Chunk.status = some .Ready ∧
      ((processVisit env m coords) coords).map (fun x => x.graphics.isSome) =
        some (!((env.meshGen (visitGenStage env m coords ch).1
              (visitLightStage env (visitGenStage env m coords ch).1 coords
                (visitGenStage env m coords ch).2) coords).water_vertices.isEmpty &&
            (env.meshGen (visitGenStage env m coords ch).1
              (visitLightStage env (visitGenStage env m coords ch).1 coords
                (visitGenStage env m coords ch).2) coords).solid_vertices.isEmpty))) ∧
    (∀ (env : UpdateEnv) (m : ChunkMap) (coords : Vec3) (ch : Chunk),
      m coords = some ch → ch.status = .Ready →
      ((processVisit env m coords) coords).map (fun x => x.graphics.isSome) =
        some ch.graphics.isSome) := by
  refine ⟨rfl, fun ch s => rfl, ?_, ?_, ?_⟩
  · intro w coords id c
    cases h : w.chunks (to_local_chunk_coords coords).1 with
    | none => simp [World.set_block, h]
    | some chunk =>
      simp only [World.set_block, h]
      by_cases hcc : c = (to_local_chunk_coords coords).1
      · subst hcc
        rw [invalidate_neighbors_of_not_neighbor (not_isNeighbor_self _)]
        simp [h, Chunk.invalidate]
      · by_cases hn : isNeighbor (to_local_chunk_coords coords).1 c
        · rw [invalidate_neighbors_of_neighbor hn]
          rw [if_neg hcc]
          cases w.chunks c <;> simp [Chunk.invalidate]
        · rw [invalidate_neighbors_of_not_neighbor hn]
          rw [if_neg hcc]
  · intro env m coords ch hch hst
    refine ⟨processVisit_self_status env m coords (by rw [hch]; rfl), ?_⟩
    simp only [processVisit, hch]
    rw [if_true, Option.map_some']
    rw [visitWaterSortStage_graphics_isSome]
    unfold visitMeshStage
    rw [if_pos (visitLightStage_after_gen_status env m _ coords ch hst)]
    simp [create_chunk_graphics_isSome]
  · intro env m coords ch hch hst
    simp only [processVisit, hch]
    rw [if_true, Option.map_some']
    rw [visitWaterSortStage_graphics_isSome]
    simp [visitGenStage, visitLightStage, visitMeshStage, hst]

theorem updateLoop_eq_foldl_take (env : UpdateEnv) (l : List Vec3) (m : ChunkMap) (k : Nat) :
    ∃ n, n ≤ l.length ∧
      updateLoop env m l k = (l.take n).foldl (processVisit env) m ∧
      (∀ j, k < j → j < k + n → env.elapsed j ≤ env.budget) ∧
      (n < l.length → env.budget < env.elapsed (k + n)) ∧
      (0 < l.length → 0 < n) := by
  induction l generalizing m k with
  | nil =>
    exact ⟨0, Nat.le_refl _, rfl, fun j h1 h2 => by omega, fun h => by simp at h,
      fun h => by simp at h⟩
  | cons c rest ih =>
    by_cases hb : env.budget < env.elapsed (k + 1)
    · refine ⟨1, by simp, ?_, ?_, fun _ => by simpa using hb, fun _ => Nat.one_pos⟩
      · simp [updateLoop, if_pos hb]
      · intro j h1 h2
        omega
    · obtain ⟨n, hn, heq, hall, hcut, hpos⟩ := ih (processVisit env m c) (k + 1)
      refine ⟨n + 1, by simpa using Nat.succ_le_succ hn, ?_, ?_, ?_, fun _ => Nat.succ_pos n⟩
      · simp only [updateLoop, if_neg hb, List.take_succ_cons, List.foldl_cons]
        exact heq
      · intro j h1 h2
        rcases Nat.lt_or_ge j (k + 2) with hj | hj
        · have : j = k + 1 := by omega
          subst this
          exact le_of_not_lt hb
        · exact hall j (by omega) (by omega)
      · intro hlt
        have h2 : n < rest.length := by simpa using Nat.lt_of_succ_lt_succ (by simpa using hlt)
        have := hcut h2
        have harith : k + 1 + n = k + (n + 1) := by omega
        rw [harith] at this
        exact this

theorem foldl_processVisit_props (env : UpdateEnv) (l : List Vec3) (m0 : ChunkMap) :
    (∀ c, ((l.foldl (processVisit env) m0) c).isSome = (m0 c).isSome) ∧
    (∀ v ∈ l, ((l.foldl (processVisit env) m0) v).map Chunk.status ≠ some .NotGenerated) ∧
    (∀ c, c ∉ l →
      ((l.foldl (processVisit env) m0) c).map Chunk.status = (m0 c).map Chunk.status ∨
      (((l.foldl (processVisit env) m0) c).map Chunk.status =
          ((m0 c).map Chunk.status).map (fun s => s.min .LightmapOutdated) ∧
        ∃ v ∈ l, isNeighbor v c ∧ (m0 v).map Chunk.status = some .NotGenerated)) := by
  induction l generalizing m0 with
  | nil => exact ⟨fun c => rfl, by simp, fun c _ => Or.inl rfl⟩
  | cons w rest ih =>
    obtain ⟨ihA, ihB, ihC⟩ := ih (processVisit env m0 w)
    have hm1_self : (processVisit env m0 w) w = none ∨
        ((processVisit env m0 w) w).map Chunk.status = some .Ready := by
      cases h0 : m0 w with
      | none =>
        left
        have := processVisit_isSome env m0 w w
        rw [h0] at this
        exact Option.not_isSome_iff_eq_none.mp (by simp [this])
      | some ch =>
        right
        exact processVisit_self_status env m0 w (by rw [h0]; rfl)
    have hm1_self_status : ((processVisit env m0 w) w).map Chunk.status ≠ some .NotGenerated ∧
        (((processVisit env m0 w) w).map Chunk.status).map
          (fun s => s.min .LightmapOutdated) ≠ some .NotGenerated := by
      rcases hm1_self with h | h
      · rw [h]
        exact ⟨by simp, by simp⟩
      · rw [h]
        exact ⟨by simp, by decide⟩
    have hback : ∀ v, (processVisit env m0 w v).map Chunk.status = some .NotGenerated →
        (m0 v).map Chunk.status = some .NotGenerated := by
      intro v hv
      by_cases hvw : v = w
      · subst hvw
        exact absurd hv hm1_self_status.1
      · rcases processVisit_of_ne env m0 w v hvw with h | ⟨h, _, _⟩
        · rw [h] at hv
          exact hv
        · rw [h] at hv
          cases h0 : m0 v with
          | none => rw [h0] at hv; simp at hv
          | some ch =>
            rw [h0] at hv
            simp only [Option.map_some', Option.some.injEq] at hv ⊢
            have : ch.status.min .LightmapOutdated = .NotGenerated := by
              simpa [Chunk.invalidate] using hv
            rw [ChunkStatus.min_eq_notGenerated this rfl]
    simp only [List.foldl_cons]
    refine ⟨?_, ?_, ?_⟩
    · intro c
      rw [ihA c, processVisit_isSome]
    · intro v hv
      rcases List.mem_cons.mp hv with rfl | hv'
      · by_cases hrest : v ∈ rest
        · exact ihB v hrest
        · rcases ihC v hrest with h | ⟨h, _⟩
          · rw [h]
            exact hm1_self_status.1
          · rw [h]
            exact hm1_self_status.2
      · exact ihB v hv'
    · intro c hc
      have hcw : c ≠ w := fun h => hc (h ▸ List.mem_cons_self w rest)
      have hcrest : c ∉ rest := fun h => hc (List.mem_cons_of_mem w h)
      rcases processVisit_of_ne env m0 w c hcw with hstep | ⟨hstep, hnb, hgen⟩
      · rcases ihC c hcrest with h | ⟨h, v, hv, hnb', hst'⟩
        · exact Or.inl (by rw [h, hstep])
        · refine Or.inr ⟨by rw [h, hstep], v, List.mem_cons_of_mem w hv, hnb', hback v hst'⟩
      · have hstepStatus : ((processVisit env m0 w) c).map Chunk.status =
            ((m0 c).map Chunk.status).map (fun s => s.min .LightmapOutdated) := by
          rw [hstep]
          cases m0 c <;> simp [Chunk.invalidate]
        rcases ihC c hcrest with h | ⟨h, v, hv, hnb', hst'⟩
        · exact Or.inr ⟨by rw [h, hstepStatus], w, List.mem_cons_self w rest, hnb, hgen⟩
        · refine Or.inr ⟨?_, w, List.mem_cons_self w rest, hnb, hgen⟩
          rw [h, hstepStatus]
          cases m0 c <;> simp [ChunkStatus.min_idem_right]


theorem markWaterUnsortedAt_status (m : ChunkMap) (c' c : Vec3) :
    ((markWaterUnsortedAt m c') c).map Chunk.status = (m c).map Chunk.status ∧
    ((markWaterUnsortedAt m c') c).isSome = (m c).isSome := by
  unfold markWaterUnsortedAt
  by_cases h : c = c'
  · subst h
    rw [if_pos rfl]
    cases m c with
    | none => exact ⟨rfl, rfl⟩
    | some ch =>
      cases hg : ch.graphics <;> simp [hg]
  · rw [if_neg h]
    exact ⟨rfl, rfl⟩

theorem foldl_markWaterUnsortedAt_status (rq : List Vec3) (m : ChunkMap) (c : Vec3) :
    ((rq.foldl markWaterUnsortedAt m) c).map Chunk.status = (m c).map Chunk.status ∧
    ((rq.foldl markWaterUnsortedAt m) c).isSome = (m c).isSome := by
  induction rq generalizing m with
  | nil => exact ⟨rfl, rfl⟩
  | cons r rest ih =>
    simp only [List.foldl_cons]
    obtain ⟨ih1, ih2⟩ := ih (markWaterUnsortedAt m r)
    obtain ⟨h1, h2⟩ := markWaterUnsortedAt_status m r c
    exact ⟨ih1.trans h1, ih2.trans h2⟩

theorem markChunkMove_chunks (env : UpdateEnv) (w : World) :
    (World.markChunkMove env w).chunks = w.chunks := by
  unfold World.markChunkMove
  split <;> rfl

theorem sortQueueIfNeeded_chunks (w : World) :
    (World.sortQueueIfNeeded w).chunks = w.chunks := by
  unfold World.sortQueueIfNeeded
  split <;> rfl

theorem markBlockMove_chunks_status (env : UpdateEnv) (w : World) (c : Vec3) :
    ((World.markBlockMove env w).chunks c).map Chunk.status = (w.chunks c).map Chunk.status ∧
    ((World.markBlockMove env w).chunks c).isSome = (w.chunks c).isSome := by
  unfold World.markBlockMove
  split
  · exact foldl_markWaterUnsortedAt_status _ _ _
  · exact ⟨rfl, rfl⟩

theorem preLoop_chunks_status (env : UpdateEnv) (w : World) (c : Vec3) :
    ((World.preLoop env w).chunks c).map Chunk.status = (w.chunks c).map Chunk.status ∧
    ((World.preLoop env w).chunks c).isSome = (w.chunks c).isSome := by
  have h1 : (World.preLoop env w).chunks =
      (World.markBlockMove env (World.markChunkMove env w)).chunks := by
    unfold World.preLoop World.clipQueue World.check_what_is_to_sort
    rw [sortQueueIfNeeded_chunks]
  rw [h1]
  obtain ⟨hpa, hb⟩ := markBlockMove_chunks_status env (World.markChunkMove env w) c
  rw [markChunkMove_chunks] at hpa hb
  exact ⟨hpa, hb⟩

/-- C4: the time-budget cutoff of `World::update` happens only at item
boundaries.  The loop's result is a fold of whole-chunk visits over a
prefix of the visit order whose length is governed by the budget checks
run after each item; every chunk outside that prefix keeps the status
(and loadedness) it had entering the call, except for a regress to
`min(status, LightmapOutdated)` caused by the neighbor invalidation of a
visited chunk that entered the call `NotGenerated`. -/
theorem C4_budget_cutoff_at_item_boundaries (env : UpdateEnv) (w : World) :
    ∃ n, n ≤ (World.visitOrder env w).length ∧
      (World.update env w).chunks =
        ((World.visitOrder env w).take n).foldl (processVisit env)
          (World.preLoop env w).chunks ∧
      (∀ j, 0 < j → j < n → env.elapsed j ≤ env.budget) ∧
      (n < (World.visitOrder env w).length → env.budget < env.elapsed n) ∧
      (0 < (World.visitOrder env w).length → 0 < n) ∧
      (∀ c, c ∉ (World.visitOrder env w).take n →
        ((World.update env w).chunks c).isSome = (w.chunks c).isSome ∧
        (((World.update env w).chunks c).map Chunk.status = (w.chunks c).map Chunk.status ∨
          (((World.update env w).chunks c).map Chunk.status =
              ((w.chunks c).map Chunk.status).map (fun s => s.min .LightmapOutdated) ∧
            ∃ v ∈ (World.visitOrder env w).take n, isNeighbor v c ∧
              (w.chunks v).map Chunk.status = some .NotGenerated))) := by
  obtain ⟨n, hn, heq, hall, hcut, hpos⟩ :=
    updateLoop_eq_foldl_take env (World.visitOrder env w) (World.preLoop env w).chunks 0
  have hupd : (World.update env w).chunks =
      updateLoop env (World.preLoop env w).chunks (World.visitOrder env w) 0 := rfl
  obtain ⟨pA, pB, pC⟩ :=
    foldl_processVisit_props env ((World.visitOrder env w).take n) (World.preLoop env w).chunks
  refine ⟨n, hn, hupd.trans heq, ?_, ?_, hpos, ?_⟩
  · intro j h1 h2
    exact hall j (by omega) (by omega)
  · intro hlt
    have := hcut hlt
    simpa using this
  · intro c hc
    have hfold : (World.update env w).chunks c =
        (((World.visitOrder env w).take n).foldl (processVisit env)
          (World.preLoop env w).chunks) c := by
      rw [hupd, heq]
    obtain ⟨hpre1, hpre2⟩ := preLoop_chunks_status env w c
    refine ⟨by rw [hfold, pA c, hpre2], ?_⟩
    rcases pC c hc with h | ⟨h, v, hv, hnb, hst⟩
    · exact Or.inl (by rw [hfold, h, hpre1])
    · refine Or.inr ⟨by rw [hfold, h, hpre1], v, hv, hnb, ?_⟩
      rw [← (preLoop_chunks_status env w v).1]
      exact hst

/-- Witness for C4 at a concrete input: the budget decomposition of the
update on `exWorld1`. -/
theorem C4_witness :
    ∃ n, n ≤ (World.visitOrder exEnv exWorld1).length ∧
      (World.update exEnv exWorld1).chunks =
        ((World.visitOrder exEnv exWorld1).take n).foldl (processVisit exEnv)
          (World.preLoop exEnv exWorld1).chunks ∧
      (∀ j, 0 < j → j < n → exEnv.elapsed j ≤ exEnv.budget) ∧
      (n < (World.visitOrder exEnv exWorld1).length → exEnv.budget < exEnv.elapsed n) ∧
      (0 < (World.visitOrder exEnv exWorld1).length → 0 < n) ∧
      (∀ c, c ∉ (World.visitOrder exEnv exWorld1).take n →
        ((World.update exEnv exWorld1).chunks c).isSome = (exWorld1.chunks c).isSome ∧
        (((World.update exEnv exWorld1).chunks c).map Chunk.status =
            (exWorld1.chunks c).map Chunk.status ∨
          (((World.update exEnv exWorld1).chunks c).map Chunk.status =
              ((exWorld1.chunks c).map Chunk.status).map (fun s => s.min .LightmapOutdated) ∧
            ∃ v ∈ (World.visitOrder exEnv exWorld1).take n, isNeighbor v c ∧
              (exWorld1.chunks v).map Chunk.status = some .NotGenerated))) :=
  C4_budget_cutoff_at_item_boundaries exEnv exWorld1

/-- Witness for the amended C3 at a concrete input: visiting the fresh
origin chunk of `exWorld1` under a mesh generator that emits one solid
vertex ends `Ready` with a present graphics handle. -/
theorem C3_witness :
    exWorld1.chunks v0 = some Chunk.new ∧
    Chunk.new.status ≠ .Ready ∧
    ((processVisit exEnvSolid exWorld1.chunks v0) v0).map Chunk.status = some .Ready ∧
    ((processVisit exEnvSolid exWorld1.chunks v0) v0).map (fun x => x.graphics.isSome) =
      some true := by
  have h := C3_graphics_presence.2.2.2.1 exEnvSolid exWorld1.chunks v0 Chunk.new rfl
    (by decide)
  exact ⟨rfl, by decide, h.1, h.2⟩

theorem load_chunk_of_loaded (w : World) (coords : Vec3) (h : (w.chunks coords).isSome) :
    w.load_chunk coords = w := by
  unfold World.load_chunk
  rw [if_pos h]

theorem load_chunk_chunks_at (w : World) (coords : Vec3) (h : ¬ (w.chunks coords).isSome = true) :
    (w.load_chunk coords).chunks coords = some Chunk.new := by
  unfold World.load_chunk
  rw [if_neg h]
  simp

/-- C10: `World::load_chunk` is idempotent — a second call at loaded
coordinates returns the world unchanged — and a first call creates a
chunk whose every cell is air with both light channels zero, status
`NotGenerated`, no graphics, touching no other map entry and appending
one queue entry. -/
theorem C10_load_chunk (w : World) (coords : Vec3) :
    ((w.chunks coords).isSome → w.load_chunk coords = w) ∧
    (w.load_chunk coords).load_chunk coords = w.load_chunk coords ∧
    (w.chunks coords = none →
      (w.load_chunk coords).chunks coords = some Chunk.new ∧
      (∀ c, c ≠ coords → (w.load_chunk coords).chunks c = w.chunks c) ∧
      ((¬ ∃ x ∈ w.queue, x.coords = coords) →
        (w.load_chunk coords).queue = w.queue ++ [⟨coords, false⟩] ∧
        (w.load_chunk coords).queue_needs_sort = true)) ∧
    Chunk.new.status = .NotGenerated ∧
    Chunk.new.graphics = none ∧
    (∀ b, Chunk.new.data b =
      { block_id := BlockId.air, sun_light := 0, block_light := 0 }) := by
  refine ⟨load_chunk_of_loaded w coords, ?_, ?_, rfl, rfl, fun b => rfl⟩
  · by_cases h : (w.chunks coords).isSome
    · rw [load_chunk_of_loaded w coords h, load_chunk_of_loaded w coords h]
    · exact load_chunk_of_loaded _ coords (by rw [load_chunk_chunks_at w coords h]; rfl)
  · intro h
    have hns : ¬ (w.chunks coords).isSome = true := by rw [h]; simp
    refine ⟨?_, ?_, ?_⟩
    · unfold World.load_chunk
      rw [if_neg hns]
      simp
    · intro c hc
      unfold World.load_chunk
      rw [if_neg hns]
      simp [hc]
    · intro hq
      have hqany : w.queue.any (fun x => decide (x.coords = coords)) = false := by
        cases hb : w.queue.any (fun x => decide (x.coords = coords)) with
        | false => rfl
        | true =>
          obtain ⟨x, hx, hxc⟩ := List.any_eq_true.mp hb
          exact absurd ⟨x, hx, of_decide_eq_true hxc⟩ hq
      constructor <;>
        · unfold World.load_chunk
          rw [if_neg hns]
          simp [worldQueueInsert, hqany]

/-- Witness for C10 at a concrete input: loading the origin chunk into
the empty world creates it, and a repeated load changes nothing. -/
theorem C10_witness :
    World.new.chunks v0 = none ∧
    (World.new.load_chunk v0).chunks v0 = some Chunk.new ∧
    (World.new.load_chunk v0).load_chunk v0 = World.new.load_chunk v0 := by
  refine ⟨rfl, ?_, (C10_load_chunk World.new v0).2.1⟩
  exact ((C10_load_chunk World.new v0).2.2.1 rfl).1

/-- C7: at a block coordinate whose containing chunk is not loaded,
`get_block` resolves to absent, `set_block` leaves the whole world
untouched, and neighbor invalidation never materializes an unloaded
chunk. -/
theorem C7_unloaded_is_noop (w : World) (coords : Vec3) (block_id : BlockId)
    (h : w.chunks (to_local_chunk_coords coords).1 = none) :
    w.get_block coords = none ∧
    w.set_block coords block_id = w ∧
    (∀ (m : ChunkMap) (v : Vec3) (s : ChunkStatus) (c : Vec3), m c = none →
      invalidate_neighbors m v s c = none) := by
  refine ⟨?_, ?_, ?_⟩
  · unfold World.get_block
    rw [h]
    rfl
  · simp only [World.set_block, h]
  · intro m v s c hc
    by_cases hn : isNeighbor v c
    · rw [invalidate_neighbors_of_neighbor hn, hc]
      rfl
    · rw [invalidate_neighbors_of_not_neighbor hn]
      exact hc

/-- Witness for C7 at a concrete input: in the empty world, reading any
block is absent and writing one is a no-op. -/
theorem C7_witness :
    World.new.chunks (to_local_chunk_coords v0).1 = none ∧
    World.new.get_block v0 = none ∧
    World.new.set_block v0 3 = World.new := by
  have h := C7_unloaded_is_noop World.new v0 3 rfl
  exact ⟨rfl, h.1, h.2.1⟩

/-- C6: `set_block` on a loaded chunk writes the id into exactly the
addressed cell and regresses the containing chunk and each loaded
geometric neighbor to `min(previous status, LightmapOutdated)`. -/
theorem C6_set_block_invalidates (w : World) (coords : Vec3) (block_id : BlockId) (chunk : Chunk)
    (h : w.chunks (to_local_chunk_coords coords).1 = some chunk) :
    (∃ chunk',
      (w.set_block coords block_id).chunks (to_local_chunk_coords coords).1 = some chunk' ∧
      chunk'.data (to_local_chunk_coords coords).2 =
        { chunk.data (to_local_chunk_coords coords).2 with block_id := block_id } ∧
      (∀ b, b ≠ (to_local_chunk_coords coords).2 → chunk'.data b = chunk.data b) ∧
      chunk'.status = chunk.status.min .LightmapOutdated ∧
      chunk'.graphics = chunk.graphics) ∧
    (∀ off ∈ neighborOffsets, ∀ nch : Chunk,
      w.chunks ((to_local_chunk_coords coords).1 + off) = some nch →
      ((w.set_block coords block_id).chunks
          ((to_local_chunk_coords coords).1 + off)).map Chunk.status =
        some (nch.status.min .LightmapOutdated)) := by
  have hw' : (w.set_block coords block_id).chunks =
      invalidate_neighbors
        (fun c => if c = (to_local_chunk_coords coords).1 then
            some ((⟨fun b => if b = (to_local_chunk_coords coords).2 then
                { chunk.data b with block_id := block_id }
              else chunk.data b, chunk.graphics, chunk.status⟩ : Chunk).invalidate
                .LightmapOutdated)
          else w.chunks c)
        (to_local_chunk_coords coords).1 .LightmapOutdated := by
    simp only [World.set_block, h]
  refine ⟨?_, ?_⟩
  · refine ⟨(⟨fun b => if b = (to_local_chunk_coords coords).2 then
        { chunk.data b with block_id := block_id }
      else chunk.data b, chunk.graphics, chunk.status⟩ : Chunk).invalidate .LightmapOutdated,
      ?_, ?_, ?_, rfl, rfl⟩
    · rw [hw', invalidate_neighbors_of_not_neighbor (not_isNeighbor_self _)]
      simp
    · simp [Chunk.invalidate]
    · intro b hb
      simp [Chunk.invalidate, if_neg hb]
  · intro off hoff nch hnch
    have hne : (to_local_chunk_coords coords).1 + off ≠ (to_local_chunk_coords coords).1 :=
      add_ne_self_of_mem_neighborOffsets _ hoff
    rw [hw', invalidate_neighbors_of_neighbor ⟨off, hoff, rfl⟩]
    rw [if_neg hne, hnch]
    rfl

/-- Witness for C6 at a concrete input: writing block id 5 at the origin
of `exWorld2` regresses the fresh origin chunk (trivially, by `min`) and
its `Ready` neighbor at `(1,0,0)` to `LightmapOutdated`. -/
theorem C6_witness :
    exWorld2.chunks (to_local_chunk_coords v0).1 = some Chunk.new ∧
    exWorld2.chunks ((to_local_chunk_coords v0).1 + ⟨1, 0, 0⟩) = some exReadyChunk ∧
    ((exWorld2.set_block v0 5).chunks ((to_local_chunk_coords v0).1 + ⟨1, 0, 0⟩)).map
        Chunk.status = some (ChunkStatus.Ready.min .LightmapOutdated) ∧
    ChunkStatus.Ready.min .LightmapOutdated = .LightmapOutdated := by
  refine ⟨rfl, rfl, ?_, rfl⟩
  exact (C6_set_block_invalidates exWorld2 v0 5 Chunk.new rfl).2 ⟨1, 0, 0⟩ (by decide)
    exReadyChunk rfl

/-- C8: after `ChunkGraphics::sort_water_geometry(relative_cam_pos)`,
every face's `distance` equals the squared distance from
`relative_cam_pos` to the face's center, the face list is a permutation
of the distance-updated original sorted by non-increasing distance, and
the water mesh's index buffer is regenerated from the faces in the new
order. -/
theorem C8_sort_water_geometry (g : Rendering.ChunkGraphics) (relative_cam_pos : Vec3q) :
    (∀ f ∈ (g.sort_water_geometry relative_cam_pos).graphics_data.water_faces,
        f.distance = relative_cam_pos.distance2 f.center) ∧
    ((g.sort_water_geometry relative_cam_pos).graphics_data.water_faces).Pairwise
        (fun a b => b.distance ≤ a.distance) ∧
    ((g.sort_water_geometry relative_cam_pos).graphics_data.water_faces).Perm
        (g.graphics_data.water_faces.map
          (fun face => { face with distance := relative_cam_pos.distance2 face.center })) ∧
    (g.sort_water_geometry relative_cam_pos).water_mesh.indices =
        Face.generate_indices
          (g.sort_water_geometry relative_cam_pos).graphics_data.water_faces := by
  refine ⟨?_, ?_, ?_, ?_⟩
  · intro f hf
    simp only [Rendering.ChunkGraphics.sort_water_geometry, List.mem_mergeSort,
      List.mem_map] at hf
    obtain ⟨a, _, rfl⟩ := hf
    rfl
  · have h := @List.sorted_mergeSort Face Rendering.faceLe faceLe_trans
      (fun a b => faceLe_total a b)
      (g.graphics_data.water_faces.map
        (fun face => { face with distance := relative_cam_pos.distance2 face.center }))
    simp only [Rendering.ChunkGraphics.sort_water_geometry]
    exact h.imp (fun hab => by
      simpa [Rendering.faceLe, decide_eq_true_eq] using hab)
  · simpa [Rendering.ChunkGraphics.sort_water_geometry] using
      List.mergeSort_perm
        (g.graphics_data.water_faces.map
          (fun face => { face with distance := relative_cam_pos.distance2 face.center }))
        Rendering.faceLe
  · rfl

end Mycraft
